import Mathlib

/-!
Verification of the task state-management engine of the `just-todo`
application: data model, store mutation operations, derived-view helpers
(filtering, date filtering, pagination) and the persistence round trip,
shallowly embedded from `src/store/todoStore.ts`, `src/utils/helpers.ts`
and the presentation-layer entry points in `src/components`.

Modelling conventions:
- JavaScript strings are `List Char` (abbreviated `Str`); `String.prototype`
  operations (`trim`, `toLowerCase`, `includes`) are embedded below.
- JavaScript `Date` values are `Nat` milliseconds since the epoch; the
  local timezone is modelled with a zero UTC offset, so
  `setHours(0,0,0,0)` floors a timestamp to a multiple of 86400000.
- `Math.ceil(a / b)` on non-negative integers is `ceilDiv`; divisions are
  only used by the code with a positive `itemsPerPage`.
- `generateId()` and `new Date()` are impure; operations take the produced
  id / timestamp as an explicit argument.
-/

/-- JavaScript strings, modelled as lists of characters. -/
abbrev Str := List Char

/-- The ECMAScript `WhiteSpace` / `LineTerminator` characters recognised by
`String.prototype.trim`. -/
def isJsWhitespace (c : Char) : Bool :=
  [9, 10, 11, 12, 13, 32, 160, 5760, 8192, 8193, 8194, 8195, 8196, 8197,
    8198, 8199, 8200, 8201, 8202, 8232, 8233, 8239, 8287, 12288, 65279].contains c.toNat

/-- `String.prototype.trim`: drop leading and trailing whitespace. -/
def jsTrim (s : Str) : Str :=
  ((s.dropWhile isJsWhitespace).reverse.dropWhile isJsWhitespace).reverse

/-- `String.prototype.toLowerCase`, character-wise. -/
def toLowerStr (s : Str) : Str :=
  s.map Char.toLower

/-- Does `needle` occur at the very start of `hay`? (helper for `includes`). -/
def leadsList : Str → Str → Bool
  | [], _ => true
  | _ :: _, [] => false
  | a :: as, b :: bs => a == b && leadsList as bs

/-- `hay.includes(needle)` from JavaScript: `jsIncludes needle hay`. -/
def jsIncludes (needle : Str) : Str → Bool
  | [] => leadsList needle []
  | b :: bs => leadsList needle (b :: bs) || jsIncludes needle bs

/-- `Math.ceil (a / b)` for non-negative `a` and positive `b`. -/
def ceilDiv (a b : Nat) : Nat :=
  (a + b - 1) / b

/-- `Array.prototype.slice(start, stop)` with the ECMAScript index
normalisation (negative indices count from the end, indices are clamped
to `[0, length]`). -/
def jsSlice {α : Type} (l : List α) (start stop : Int) : List α :=
  let len : Int := l.length
  let s := if start < 0 then max (len + start) 0 else min start len
  let e := if stop < 0 then max (len + stop) 0 else min stop len
  (l.drop s.toNat).take (e - s).toNat

/-- Milliseconds in one day. -/
def msPerDay : Nat := 86400000

/-- `date.setHours(0, 0, 0, 0)` (UTC model): floor to the start of the day. -/
def startOfDay (t : Nat) : Nat :=
  (t / msPerDay) * msPerDay

/-- `date.setHours(23, 59, 59, 999)` (UTC model): last millisecond of the day. -/
def endOfDay (t : Nat) : Nat :=
  (t / msPerDay) * msPerDay + (msPerDay - 1)

/-- `Todo` from `src/types/todo.ts`. -/
structure Todo where
  id : Str
  text : Str
  completed : Bool
  createdAt : Nat
deriving DecidableEq, Repr

/-- `FilterType` from `src/types/todo.ts`. -/
inductive FilterType where
  | all
  | active
  | completed
deriving DecidableEq, Repr

/-- `PaginationState` from `src/types/todo.ts`. -/
structure PaginationState where
  currentPage : Int
  itemsPerPage : Nat
  totalPages : Nat
deriving DecidableEq, Repr

/-- `DateFilter` from `src/types/todo.ts`. -/
structure DateFilter where
  startDate : Option Nat
  endDate : Option Nat
  selectedDate : Option Nat
deriving DecidableEq, Repr

/-- `DeletedTodo` from `src/types/todo.ts`. -/
structure DeletedTodo where
  todo : Todo
  deletedAt : Nat
deriving DecidableEq, Repr

/-- The data fields of `TodoState` from `src/store/todoStore.ts`. -/
structure TodoState where
  todos : List Todo
  deletedTodos : List DeletedTodo
  searchQuery : Str
  currentFilter : FilterType
  dateFilter : DateFilter
  pagination : PaginationState
deriving DecidableEq, Repr

/-- The initial state of the store (`useTodoStore`'s object literal). -/
def initialState : TodoState where
  todos := []
  deletedTodos := []
  searchQuery := []
  currentFilter := .all
  dateFilter := ⟨none, none, none⟩
  pagination := ⟨1, 10, 1⟩

/-- `filterTodos` from `src/utils/helpers.ts` (the full helpers version):
search filter first (skipped when the trimmed query is empty), then the
status filter. -/
def filterTodos (todos : List Todo) (filter : FilterType) (searchQuery : Str) : List Todo :=
  let filtered :=
    if (jsTrim searchQuery).isEmpty then todos
    else todos.filter fun todo => jsIncludes (toLowerStr searchQuery) (toLowerStr todo.text)
  match filter with
  | .active => filtered.filter fun todo => !todo.completed
  | .completed => filtered.filter fun todo => todo.completed
  | .all => filtered

/-- The second `filterTodos` implementation that coexists in the repository
(the simpler helpers variant): same search-then-status pipeline. -/
def filterTodosV2 (todos : List Todo) (filter : FilterType) (searchQuery : Str) : List Todo :=
  let filtered :=
    if (jsTrim searchQuery).isEmpty then todos
    else todos.filter fun todo => jsIncludes (toLowerStr searchQuery) (toLowerStr todo.text)
  match filter with
  | .active => filtered.filter fun todo => !todo.completed
  | .completed => filtered.filter fun todo => todo.completed
  | .all => filtered

/-- `filterTodosByDate` from `src/utils/helpers.ts`: identity when no date
bound is set, otherwise a per-todo predicate that checks `selectedDate`
first, then the range cases. -/
def filterTodosByDate (todos : List Todo) (dateFilter : DateFilter) : List Todo :=
  if dateFilter.selectedDate.isNone && dateFilter.startDate.isNone &&
      dateFilter.endDate.isNone then
    todos
  else
    todos.filter fun todo =>
      let todoDate := startOfDay todo.createdAt
      match dateFilter.selectedDate with
      | some sel => todoDate == startOfDay sel
      | none =>
        match dateFilter.startDate, dateFilter.endDate with
        | some sd, some ed => decide (startOfDay sd ≤ todoDate ∧ todoDate ≤ endOfDay ed)
        | some sd, none => decide (startOfDay sd ≤ todoDate)
        | none, some ed => decide (todoDate ≤ endOfDay ed)
        | none, none => true

/-- `getPaginatedTodos` from `src/utils/helpers.ts`:
`Math.ceil(todos.length / itemsPerPage)` total pages and an
`Array.prototype.slice` page window. -/
def getPaginatedTodos (todos : List Todo) (currentPage : Int) (itemsPerPage : Nat) :
    List Todo × Nat :=
  let totalPages := ceilDiv todos.length itemsPerPage
  let startIndex : Int := (currentPage - 1) * itemsPerPage
  let endIndex : Int := startIndex + itemsPerPage
  (jsSlice todos startIndex endIndex, totalPages)

/-- `getTodoStats` from `src/utils/helpers.ts`. -/
def getTodoStats (todos : List Todo) : Nat × Nat × Nat :=
  let total := todos.length
  let completed := (todos.filter fun todo => todo.completed).length
  let active := total - completed
  (total, completed, active)

/-- `addTodo` from `src/store/todoStore.ts`: prepend a new todo built from
the generated id and the current timestamp, reset `currentPage` to 1. -/
def addTodo (genId : Str) (now : Nat) (text : Str) (s : TodoState) : TodoState :=
  let newTodo : Todo := { id := genId, text := text, completed := false, createdAt := now }
  { s with
    todos := newTodo :: s.todos
    pagination := { s.pagination with currentPage := 1 } }

/-- `toggleTodo` from `src/store/todoStore.ts`. -/
def toggleTodo (id : Str) (s : TodoState) : TodoState :=
  { s with
    todos := s.todos.map fun todo =>
      if todo.id = id then { todo with completed := !todo.completed } else todo }

/-- `deleteTodo` from `src/store/todoStore.ts`: if the id is found, remove
the matching todos, push an undo record, and clamp `currentPage` to
`Math.ceil((todos.length - 1) / itemsPerPage)`. -/
def deleteTodo (now : Nat) (id : Str) (s : TodoState) : TodoState :=
  match s.todos.find? (fun todo => decide (todo.id = id)) with
  | none => s
  | some todoToDelete =>
    { s with
      todos := s.todos.filter fun todo => !decide (todo.id = id)
      deletedTodos := ⟨todoToDelete, now⟩ :: s.deletedTodos
      pagination := { s.pagination with
        currentPage := min s.pagination.currentPage
          ((ceilDiv (s.todos.length - 1) s.pagination.itemsPerPage : Nat) : Int) } }

/-- `undoDelete` from `src/store/todoStore.ts`: pop the most recent undo
record, reinsert its todo at the front, reset `currentPage` to 1. -/
def undoDelete (s : TodoState) : TodoState :=
  match s.deletedTodos with
  | [] => s
  | latestDeleted :: remainingDeleted =>
    { s with
      todos := latestDeleted.todo :: s.todos
      deletedTodos := remainingDeleted
      pagination := { s.pagination with currentPage := 1 } }

/-- `updateTodo` from `src/store/todoStore.ts`. -/
def updateTodo (id : Str) (text : Str) (s : TodoState) : TodoState :=
  { s with
    todos := s.todos.map fun todo =>
      if todo.id = id then { todo with text := text } else todo }

/-- `clearCompleted` from `src/store/todoStore.ts`. -/
def clearCompleted (s : TodoState) : TodoState :=
  { s with
    todos := s.todos.filter fun todo => !todo.completed
    pagination := { s.pagination with currentPage := 1 } }

/-- `setSearchQuery` from `src/store/todoStore.ts`. -/
def setSearchQuery (query : Str) (s : TodoState) : TodoState :=
  { s with
    searchQuery := query
    pagination := { s.pagination with currentPage := 1 } }

/-- `setCurrentFilter` from `src/store/todoStore.ts`. -/
def setCurrentFilter (filter : FilterType) (s : TodoState) : TodoState :=
  { s with
    currentFilter := filter
    pagination := { s.pagination with currentPage := 1 } }

/-- `setDateFilter` from `src/store/todoStore.ts`. -/
def setDateFilter (filter : DateFilter) (s : TodoState) : TodoState :=
  { s with
    dateFilter := filter
    pagination := { s.pagination with currentPage := 1 } }

/-- `clearDateFilter` from `src/store/todoStore.ts`. -/
def clearDateFilter (s : TodoState) : TodoState :=
  { s with
    dateFilter := ⟨none, none, none⟩
    pagination := { s.pagination with currentPage := 1 } }

/-- `setCurrentPage` from `src/store/todoStore.ts`: stores the page verbatim. -/
def setCurrentPage (page : Int) (s : TodoState) : TodoState :=
  { s with pagination := { s.pagination with currentPage := page } }

/-- `setItemsPerPage` from `src/store/todoStore.ts`. -/
def setItemsPerPage (itemsPerPage : Nat) (s : TodoState) : TodoState :=
  { s with pagination := { s.pagination with itemsPerPage := itemsPerPage, currentPage := 1 } }

/-- `handleSubmit` from `src/components/TodoForm.tsx`: the presentation-layer
entry point for adding a task; trims and only calls `addTodo` when the
trimmed text is non-empty. -/
def handleSubmit (genId : Str) (now : Nat) (text : Str) (s : TodoState) : TodoState :=
  if jsTrim text ≠ [] then addTodo genId now (jsTrim text) s else s

/-- `handleSave` from `src/components/TodoItem.tsx`: the presentation-layer
entry point for editing a task's text; trims and only calls `updateTodo`
when the trimmed text is non-empty. -/
def handleSave (id : Str) (editText : Str) (s : TodoState) : TodoState :=
  if jsTrim editText ≠ [] then updateTodo id (jsTrim editText) s else s

/-- A persisted todo: `createdAt` may arrive from storage as ISO-8601 text
(the `JSON.stringify` rendering of a `Date`) or as an already-migrated
date value — the `string | Date` union that `migrateTodos` dispatches on. -/
structure StoredTodo where
  id : Str
  text : Str
  completed : Bool
  createdAt : Sum Str Nat
deriving DecidableEq, Repr

/-- A persisted undo record, with both date fields possibly text. -/
structure StoredDeletedTodo where
  todo : StoredTodo
  deletedAt : Sum Str Nat
deriving DecidableEq, Repr

/-- The persisted subset of the store state: what the `persist` options
keep (`todos`, `deletedTodos`, `pagination`) — `searchQuery`,
`currentFilter` and `dateFilter` are not part of this record. -/
structure PersistedState where
  todos : List StoredTodo
  deletedTodos : List StoredDeletedTodo
  pagination : PaginationState
deriving DecidableEq, Repr

/-- JSON serialization of one todo: `Date` fields are rendered as text by
`enc` (the platform's `toISOString`, kept abstract). -/
def encodeTodo (enc : Nat → Str) (todo : Todo) : StoredTodo :=
  { id := todo.id, text := todo.text, completed := todo.completed,
    createdAt := Sum.inl (enc todo.createdAt) }

/-- JSON serialization of one undo record. -/
def encodeDeletedTodo (enc : Nat → Str) (deleted : DeletedTodo) : StoredDeletedTodo :=
  { todo := encodeTodo enc deleted.todo, deletedAt := Sum.inl (enc deleted.deletedAt) }

/-- The `persist` write path: project the state to the persisted subset
and render every date field as text. -/
def persistState (enc : Nat → Str) (s : TodoState) : PersistedState :=
  { todos := s.todos.map (encodeTodo enc)
    deletedTodos := s.deletedTodos.map (encodeDeletedTodo enc)
    pagination := s.pagination }

/-- `migrateTodos` from `src/store/todoStore.ts`: convert text dates back
to date values (`parse` is the platform's `new Date(string)` constructor,
kept abstract), leaving date-typed values alone. -/
def migrateTodos (parse : Str → Nat) (todos : List StoredTodo) : List Todo :=
  todos.map fun todo =>
    { id := todo.id, text := todo.text, completed := todo.completed,
      createdAt :=
        match todo.createdAt with
        | Sum.inl str => parse str
        | Sum.inr date => date }

/-- The `deletedTodos` branch of `onRehydrateStorage`: migrate
`todo.createdAt` and `deletedAt`. -/
def migrateDeletedTodos (parse : Str → Nat) (ds : List StoredDeletedTodo) : List DeletedTodo :=
  ds.map fun deleted =>
    { todo :=
        { id := deleted.todo.id, text := deleted.todo.text,
          completed := deleted.todo.completed,
          createdAt :=
            match deleted.todo.createdAt with
            | Sum.inl str => parse str
            | Sum.inr date => date }
      deletedAt :=
        match deleted.deletedAt with
        | Sum.inl str => parse str
        | Sum.inr date => date }

/-- The rehydration read path: persisted fields are restored (with date
migration per `onRehydrateStorage`); non-persisted fields keep their
initial values. -/
def rehydrate (parse : Str → Nat) (p : PersistedState) : TodoState :=
  { todos := migrateTodos parse p.todos
    deletedTodos := migrateDeletedTodos parse p.deletedTodos
    searchQuery := initialState.searchQuery
    currentFilter := initialState.currentFilter
    dateFilter := initialState.dateFilter
    pagination := p.pagination }

/-- One store operation, with the values produced by the impure
`generateId()` / `new Date()` calls carried as payload. -/
inductive Op where
  | add (genId : Str) (now : Nat) (text : Str)
  | toggle (id : Str)
  | delete (now : Nat) (id : Str)
  | undo
  | update (id : Str) (text : Str)
  | clearDone
  | search (query : Str)
  | status (filter : FilterType)
  | date (filter : DateFilter)
  | clearDate
  | page (p : Int)
  | perPage (n : Nat)
deriving DecidableEq, Repr

/-- Apply one store operation. -/
def stepOp : Op → TodoState → TodoState
  | .add genId now text => addTodo genId now text
  | .toggle id => toggleTodo id
  | .delete now id => deleteTodo now id
  | .undo => undoDelete
  | .update id text => updateTodo id text
  | .clearDone => clearCompleted
  | .search query => setSearchQuery query
  | .status filter => setCurrentFilter filter
  | .date filter => setDateFilter filter
  | .clearDate => clearDateFilter
  | .page p => setCurrentPage p
  | .perPage n => setItemsPerPage n

/-- Run a sequence of store operations from a state. -/
def run : List Op → TodoState → TodoState
  | [], s => s
  | op :: ops, s => run ops (stepOp op s)

/-- The ids consumed from `generateId()` by one operation. -/
def opAddIds : Op → List Str
  | .add genId _ _ => [genId]
  | _ => []

/-- The ids consumed from `generateId()` along a whole operation sequence. -/
def addIds (ops : List Op) : List Str :=
  ops.flatMap opAddIds

/-- Every id held anywhere in the store: live collection plus undo stack. -/
def allIds (s : TodoState) : List Str :=
  s.todos.map Todo.id ++ s.deletedTodos.map fun deleted => deleted.todo.id

/-- Spec-side status predicate: `active` keeps not-completed tasks,
`completed` keeps completed ones, `all` keeps everything. -/
def matchesStatus (filter : FilterType) (todo : Todo) : Bool :=
  match filter with
  | .all => true
  | .active => !todo.completed
  | .completed => todo.completed

/-- Spec-side search predicate: case-insensitive substring match on the
text, vacuously true when the query is empty or whitespace-only. -/
def matchesSearch (searchQuery : Str) (todo : Todo) : Bool :=
  if (jsTrim searchQuery).isEmpty then true
  else jsIncludes (toLowerStr searchQuery) (toLowerStr todo.text)

/-- A one-todo store state used to instantiate theorems with hypotheses. -/
def oneTodoState : TodoState :=
  { initialState with todos := [⟨['a'], ['x'], false, 0⟩] }

/-- A store state with a live todo and an undo record, used to instantiate
theorems with hypotheses. -/
def richState : TodoState :=
  { initialState with
    todos := [⟨['a'], ['x'], false, 5⟩]
    deletedTodos := [⟨⟨['b'], ['y'], true, 3⟩, 9⟩] }

/-- C10: the two `filterTodos` implementations that coexist in the
repository compute the same filtered sequence on every input. -/
theorem filterTodos_eq_filterTodosV2 :
    ∀ (todos : List Todo) (filter : FilterType) (searchQuery : Str),
      filterTodos todos filter searchQuery = filterTodosV2 todos filter searchQuery :=
  fun _ _ _ => rfl

/-- C9: `setCurrentPage p` stores `p` verbatim as `currentPage` and leaves
every other component of the store state unchanged. -/
theorem setCurrentPage_verbatim_frame (p : Int) (s : TodoState) :
    (setCurrentPage p s).pagination.currentPage = p
    ∧ (setCurrentPage p s).todos = s.todos
    ∧ (setCurrentPage p s).deletedTodos = s.deletedTodos
    ∧ (setCurrentPage p s).searchQuery = s.searchQuery
    ∧ (setCurrentPage p s).currentFilter = s.currentFilter
    ∧ (setCurrentPage p s).dateFilter = s.dateFilter
    ∧ (setCurrentPage p s).pagination.itemsPerPage = s.pagination.itemsPerPage
    ∧ (setCurrentPage p s).pagination.totalPages = s.pagination.totalPages :=
  ⟨rfl, rfl, rfl, rfl, rfl, rfl, rfl, rfl⟩

/-- C1 counterexample: the store operation `addTodo`, called directly with
empty text, does change the live task collection — the store itself
performs no trim-and-reject validation. -/
theorem addTodo_empty_text_mutates :
    (addTodo ['z'] 0 [] initialState).todos ≠ initialState.todos := by
  decide

/-- C1 (amended): empty/whitespace rejection happens in the
presentation-layer entry points: the form-submit and item-save handlers
trim the input and are silent no-ops, leaving the whole store state
unchanged, when the trimmed text is empty. -/
theorem submit_save_empty_noop (genId : Str) (now : Nat) (id text : Str) (s : TodoState)
    (h : jsTrim text = []) :
    handleSubmit genId now text s = s ∧ handleSave id text s = s := by
  constructor <;> simp [handleSubmit, handleSave, h]

/-- C1 witness: the no-op theorem applied to a two-space input. -/
theorem submit_save_empty_noop_witness :
    jsTrim [' ', ' '] = [] ∧
      (handleSubmit ['g'] 0 [' ', ' '] oneTodoState = oneTodoState
        ∧ handleSave ['i'] [' ', ' '] oneTodoState = oneTodoState) :=
  ⟨by decide, submit_save_empty_noop ['g'] 0 ['i'] [' ', ' '] oneTodoState (by decide)⟩

/-- C7: with `selectedDate` set to day `d`, the date filter keeps exactly
the todos created on the same calendar day as `d`, ignoring the
time-of-day of both timestamps and ignoring `startDate`/`endDate`. -/
theorem filterTodosByDate_selected (todos : List Todo) (df : DateFilter) (d : Nat)
    (h : df.selectedDate = some d) :
    filterTodosByDate todos df =
      todos.filter fun todo => decide (todo.createdAt / msPerDay = d / msPerDay) := by
  simp only [filterTodosByDate, h, Option.isNone_some, Bool.false_and, Bool.and_false,
    Bool.false_eq_true, if_false]
  refine List.filter_congr fun todo _ => ?_
  show (startOfDay todo.createdAt == startOfDay d) = _
  rw [Bool.eq_iff_iff]
  simp only [startOfDay, msPerDay, beq_iff_eq, decide_eq_true_eq]
  omega

/-- C7 witness: the selected-day filter applied to a concrete one-task
list and a concrete date filter whose range bounds are also set. -/
theorem filterTodosByDate_selected_witness :
    filterTodosByDate [⟨['1'], ['x'], false, 86400055⟩] ⟨some 5, some 7, some 86400000⟩ =
      List.filter (fun todo => decide (todo.createdAt / msPerDay = 86400000 / msPerDay))
        [⟨['1'], ['x'], false, 86400055⟩] :=
  filterTodosByDate_selected [⟨['1'], ['x'], false, 86400055⟩] ⟨some 5, some 7, some 86400000⟩
    86400000 rfl

/-- C4: deleting a present id and immediately undoing restores the deleted
task — the first live task whose id matches — to the front of the live
collection with all four fields identical, and pops the undo record,
leaving the undo stack as it was before the deletion. -/
theorem deleteTodo_undoDelete_restores (s : TodoState) (id : Str) (now : Nat)
    (h : ∃ t ∈ s.todos, t.id = id) :
    ∃ t, s.todos.find? (fun todo => decide (todo.id = id)) = some t
      ∧ t.id = id
      ∧ (undoDelete (deleteTodo now id s)).todos.head? = some t
      ∧ (undoDelete (deleteTodo now id s)).deletedTodos = s.deletedTodos := by
  obtain ⟨t0, ht0mem, ht0id⟩ := h
  have hsome : (s.todos.find? (fun todo => decide (todo.id = id))).isSome := by
    rw [List.find?_isSome]
    exact ⟨t0, ht0mem, by simp [ht0id]⟩
  obtain ⟨t, ht⟩ := Option.isSome_iff_exists.mp hsome
  have htid : t.id = id := by
    have := List.find?_some ht
    simpa using this
  refine ⟨t, ht, htid, ?_, ?_⟩
  · simp [deleteTodo, undoDelete, ht]
  · simp [deleteTodo, undoDelete, ht]

/-- C4 witness: delete-then-undo on a concrete one-task state. -/
theorem deleteTodo_undoDelete_restores_witness :
    ∃ t, oneTodoState.todos.find? (fun todo => decide (todo.id = ['a'])) = some t
      ∧ t.id = ['a']
      ∧ (undoDelete (deleteTodo 7 ['a'] oneTodoState)).todos.head? = some t
      ∧ (undoDelete (deleteTodo 7 ['a'] oneTodoState)).deletedTodos = oneTodoState.deletedTodos :=
  deleteTodo_undoDelete_restores oneTodoState ['a'] 7 (by decide)

/-- C8: persisting the store state (projection to tasks, undo records and
pagination, with every date field rendered as text) and rehydrating with
the migration step restores the tasks, undo records and pagination
field-for-field, with all date fields back as date values — provided the
platform's date parser inverts its date renderer. -/
theorem persist_rehydrate_roundtrip (enc : Nat → Str) (parse : Str → Nat)
    (hinv : ∀ date, parse (enc date) = date) (s : TodoState) :
    (rehydrate parse (persistState enc s)).todos = s.todos
    ∧ (rehydrate parse (persistState enc s)).deletedTodos = s.deletedTodos
    ∧ (rehydrate parse (persistState enc s)).pagination = s.pagination := by
  refine ⟨?_, ?_, rfl⟩
  · show migrateTodos parse (s.todos.map (encodeTodo enc)) = s.todos
    induction s.todos with
    | nil => rfl
    | cons t ts ih =>
      show Todo.mk t.id t.text t.completed (parse (enc t.createdAt))
          :: migrateTodos parse (ts.map (encodeTodo enc)) = t :: ts
      rw [hinv, ih]
  · show migrateDeletedTodos parse (s.deletedTodos.map (encodeDeletedTodo enc)) = s.deletedTodos
    induction s.deletedTodos with
    | nil => rfl
    | cons deleted ds ih =>
      show DeletedTodo.mk
            (Todo.mk deleted.todo.id deleted.todo.text deleted.todo.completed
              (parse (enc deleted.todo.createdAt)))
            (parse (enc deleted.deletedAt))
          :: migrateDeletedTodos parse (ds.map (encodeDeletedTodo enc)) = deleted :: ds
      rw [hinv, hinv, ih]

/-- C8 witness: the round trip at a concrete invertible renderer/parser
pair and a state holding one live task and one undo record. -/
theorem persist_rehydrate_roundtrip_witness :
    (rehydrate List.length (persistState (fun date => List.replicate date 'x') richState)).todos
        = richState.todos
    ∧ (rehydrate List.length
          (persistState (fun date => List.replicate date 'x') richState)).deletedTodos
        = richState.deletedTodos
    ∧ (rehydrate List.length
          (persistState (fun date => List.replicate date 'x') richState)).pagination
        = richState.pagination :=
  persist_rehydrate_roundtrip (fun date => List.replicate date 'x') List.length
    (fun date => by simp) richState

/-- `leadsList needle hay` holds exactly when `hay` starts with `needle`. -/
theorem leadsList_iff (needle : Str) :
    ∀ hay : Str, leadsList needle hay = true ↔ ∃ r, hay = needle ++ r := by
  induction needle with
  | nil =>
    intro hay
    simp [leadsList]
  | cons a as ih =>
    intro hay
    cases hay with
    | nil =>
      simp [leadsList]
    | cons b bs =>
      simp only [leadsList, Bool.and_eq_true, beq_iff_eq, ih, List.cons_append,
        List.cons.injEq]
      constructor
      · rintro ⟨hab, r, hr⟩
        exact ⟨r, hab.symm, hr⟩
      · rintro ⟨r, hab, hr⟩
        exact ⟨hab.symm, r, hr⟩

/-- `jsIncludes needle hay` holds exactly when `needle` is a contiguous
substring of `hay`. -/
theorem jsIncludes_iff (needle : Str) :
    ∀ hay : Str, jsIncludes needle hay = true ↔ ∃ l r, hay = l ++ needle ++ r := by
  intro hay
  induction hay with
  | nil =>
    simp only [jsIncludes, leadsList_iff]
    constructor
    · rintro ⟨r, hr⟩
      exact ⟨[], r, by simpa using hr⟩
    · rintro ⟨l, r, hlr⟩
      have h2 : needle = [] := by
        cases l with
        | nil =>
          cases needle with
          | nil => rfl
          | cons c cs => simp at hlr
        | cons c cs => simp at hlr
      exact ⟨[], by simp [h2]⟩
  | cons b bs ih =>
    simp only [jsIncludes, Bool.or_eq_true, leadsList_iff, ih]
    constructor
    · rintro (⟨r, hr⟩ | ⟨l, r, hlr⟩)
      · exact ⟨[], r, by simpa using hr⟩
      · exact ⟨b :: l, r, by simp [hlr]⟩
    · rintro ⟨l, r, hlr⟩
      cases l with
      | nil =>
        exact Or.inl ⟨r, by simpa using hlr⟩
      | cons c cs =>
        right
        refine ⟨cs, r, ?_⟩
        have := hlr
        simp only [List.cons_append, List.cons.injEq] at this
        exact this.2

/-- C6: `filterTodos` returns exactly the input tasks that pass both the
case-insensitive substring search (vacuous for empty/whitespace queries)
and the status predicate, as an order-preserving sublist of the input;
and the substring test used really is containment of the query. -/
theorem filterTodos_spec (todos : List Todo) (filter : FilterType) (searchQuery : Str) :
    filterTodos todos filter searchQuery =
      todos.filter (fun todo => matchesSearch searchQuery todo && matchesStatus filter todo)
    ∧ List.Sublist (filterTodos todos filter searchQuery) todos
    ∧ ∀ needle hay, jsIncludes needle hay = true ↔ ∃ l r, hay = l ++ needle ++ r := by
  have hmain : filterTodos todos filter searchQuery =
      todos.filter (fun todo => matchesSearch searchQuery todo && matchesStatus filter todo) := by
    unfold filterTodos matchesSearch matchesStatus
    cases hq : (jsTrim searchQuery).isEmpty <;> cases filter <;>
      simp [hq, List.filter_filter, Bool.and_comm]
  refine ⟨hmain, ?_, jsIncludes_iff⟩
  rw [hmain]
  exact List.filter_sublist _

/-- Removing the unique todo carrying a given id shortens the list by
exactly one. -/
theorem filter_out_unique_id_length (id : Str) :
    ∀ l : List Todo, (l.map Todo.id).Nodup → ∀ t ∈ l, t.id = id →
      (l.filter fun todo => !decide (todo.id = id)).length = l.length - 1 := by
  intro l
  induction l with
  | nil => intro _ t ht; exact absurd ht (List.not_mem_nil t)
  | cons x xs ih =>
    intro hnodup t ht htid
    have hx : ¬ x.id ∈ xs.map Todo.id := (List.nodup_cons.mp hnodup).1
    by_cases hxid : x.id = id
    · have hxs : (xs.filter fun todo => !decide (todo.id = id)) = xs := by
        rw [List.filter_eq_self]
        intro y hy
        simp only [Bool.not_eq_true', decide_eq_false_iff_not]
        intro hyid
        exact hx (hxid ▸ hyid ▸ List.mem_map_of_mem Todo.id hy)
      simp [hxid, hxs]
    · have htxs : t ∈ xs := by
        rcases List.mem_cons.mp ht with rfl | h
        · exact absurd htid hxid
        · exact h
      have hlen := ih (List.nodup_cons.mp hnodup).2 t htxs htid
      have hpos : 0 < xs.length := List.length_pos_of_mem htxs
      rw [List.filter_cons, if_pos (by simp [hxid])]
      simp only [List.length_cons, hlen]
      omega

/-- `ceilDiv a b` is at least 1 once `a` is. -/
theorem ceilDiv_pos (a b : Nat) (hb : 0 < b) (ha : 1 ≤ a) : 1 ≤ ceilDiv a b := by
  unfold ceilDiv
  rw [Nat.one_le_div_iff hb]
  omega

/-- C3 counterexample: deleting the only task while on page 1 clamps
`currentPage` to `min 1 (ceil 0) = 0`, strictly below 1. -/
theorem deleteTodo_currentPage_below_one :
    (deleteTodo 99 ['a'] oneTodoState).pagination.currentPage < 1 := by
  decide

/-- C3 (amended): deleting a present id (ids unique, positive
`itemsPerPage`) sets `currentPage` to the minimum of its previous value
and `ceil(postDeleteCount / itemsPerPage)`; the clamp never increases
`currentPage`, and the result stays at least 1 whenever the previous page
was at least 1 and some task survives the deletion — but deleting the
last task yields `currentPage = 0`. -/
theorem deleteTodo_clamps_currentPage (s : TodoState) (id : Str) (now : Nat)
    (hmem : ∃ t ∈ s.todos, t.id = id)
    (hnodup : (s.todos.map Todo.id).Nodup)
    (hipp : 0 < s.pagination.itemsPerPage) :
    (deleteTodo now id s).pagination.currentPage
        = min s.pagination.currentPage
            ((ceilDiv (deleteTodo now id s).todos.length s.pagination.itemsPerPage : Nat) : Int)
    ∧ (deleteTodo now id s).pagination.currentPage ≤ s.pagination.currentPage
    ∧ (1 ≤ s.pagination.currentPage → (deleteTodo now id s).todos ≠ [] →
        1 ≤ (deleteTodo now id s).pagination.currentPage) := by
  obtain ⟨t0, ht0mem, ht0id⟩ := hmem
  have hsome : (s.todos.find? (fun todo => decide (todo.id = id))).isSome := by
    rw [List.find?_isSome]
    exact ⟨t0, ht0mem, by simp [ht0id]⟩
  obtain ⟨t, ht⟩ := Option.isSome_iff_exists.mp hsome
  have hlen : (s.todos.filter fun todo => !decide (todo.id = id)).length
      = s.todos.length - 1 :=
    filter_out_unique_id_length id s.todos hnodup t0 ht0mem ht0id
  refine ⟨?_, ?_, ?_⟩
  · simp [deleteTodo, ht, hlen]
  · simp only [deleteTodo, ht]
    exact min_le_left _ _
  · intro hcp hne
    simp only [deleteTodo, ht] at hne ⊢
    have hne' : 1 ≤ (s.todos.filter fun todo => !decide (todo.id = id)).length := by
      rcases Nat.eq_zero_or_pos (s.todos.filter fun todo => !decide (todo.id = id)).length
        with hz | hpos
      · exact absurd (List.eq_nil_of_length_eq_zero hz) hne
      · exact hpos
    have hceil : 1 ≤ ceilDiv (s.todos.length - 1) s.pagination.itemsPerPage :=
      ceilDiv_pos _ _ hipp (hlen ▸ hne')
    exact le_min hcp (by exact_mod_cast hceil)

/-- C3 witness: delete one of two tasks (one task per page) while on
page 2; `currentPage` clamps from 2 to 1. -/
theorem deleteTodo_clamps_currentPage_witness :
    (deleteTodo 3 ['a'] { initialState with
        todos := [⟨['a'], ['x'], false, 0⟩, ⟨['b'], ['y'], false, 0⟩]
        pagination := ⟨2, 1, 2⟩ }).pagination.currentPage
        = min (2 : Int)
            ((ceilDiv (deleteTodo 3 ['a'] { initialState with
                todos := [⟨['a'], ['x'], false, 0⟩, ⟨['b'], ['y'], false, 0⟩]
                pagination := ⟨2, 1, 2⟩ }).todos.length 1 : Nat) : Int)
    ∧ (deleteTodo 3 ['a'] { initialState with
        todos := [⟨['a'], ['x'], false, 0⟩, ⟨['b'], ['y'], false, 0⟩]
        pagination := ⟨2, 1, 2⟩ }).pagination.currentPage ≤ 2
    ∧ ((1 : Int) ≤ 2 → (deleteTodo 3 ['a'] { initialState with
        todos := [⟨['a'], ['x'], false, 0⟩, ⟨['b'], ['y'], false, 0⟩]
        pagination := ⟨2, 1, 2⟩ }).todos ≠ [] →
        1 ≤ (deleteTodo 3 ['a'] { initialState with
          todos := [⟨['a'], ['x'], false, 0⟩, ⟨['b'], ['y'], false, 0⟩]
          pagination := ⟨2, 1, 2⟩ }).pagination.currentPage) :=
  deleteTodo_clamps_currentPage
    { initialState with
      todos := [⟨['a'], ['x'], false, 0⟩, ⟨['b'], ['y'], false, 0⟩]
      pagination := ⟨2, 1, 2⟩ } ['a'] 3 (by decide) (by decide) (by decide)

/-- `jsSlice` with a non-negative window `[a, a+b)` is plain drop/take. -/
theorem jsSlice_nonneg {α : Type} (l : List α) (a b : Nat) :
    jsSlice l (a : Int) ((a : Int) + (b : Int)) = (l.drop a).take b := by
  unfold jsSlice
  dsimp only
  rw [if_neg (by omega), if_neg (by omega)]
  have hs : (min (a : Int) (l.length : Int)).toNat = min a l.length := by omega
  have he : (min ((a : Int) + (b : Int)) (l.length : Int) - min (a : Int) (l.length : Int)).toNat
      = min (a + b) l.length - min a l.length := by omega
  rw [hs, he]
  rcases Nat.le_total a l.length with hle | hgt
  · rw [Nat.min_eq_left hle]
    rw [List.take_eq_take]
    simp only [List.length_drop]
    omega
  · rw [Nat.min_eq_right hgt, List.drop_eq_nil_of_le hgt, List.drop_eq_nil_of_le (le_refl _)]
    simp

/-- `ceilDiv a b * b` covers `a` (for positive `b`). -/
theorem ceilDiv_mul_ge (a b : Nat) (hb : 0 < b) : a ≤ ceilDiv a b * b := by
  rcases Nat.eq_zero_or_pos a with rfl | ha
  · exact Nat.zero_le _
  · have hq := Nat.div_add_mod (a - 1) b
    have hr : (a - 1) % b < b := Nat.mod_lt _ hb
    have hceil : ceilDiv a b = (a - 1) / b + 1 := by
      unfold ceilDiv
      have hab : a + b - 1 = (a - 1) + b := by omega
      rw [hab, Nat.add_div_right _ hb]
    calc a = a - 1 + 1 := by omega
      _ = b * ((a - 1) / b) + (a - 1) % b + 1 := by rw [hq]
      _ = b * ((a - 1) / b) + ((a - 1) % b + 1) := by rw [Nat.add_assoc]
      _ ≤ b * ((a - 1) / b) + b := Nat.add_le_add_left (Nat.succ_le_of_lt hr) _
      _ = (a - 1) / b * b + b := by rw [Nat.mul_comm]
      _ = ((a - 1) / b + 1) * b := by rw [Nat.succ_mul]
      _ = ceilDiv a b * b := by rw [hceil]

/-- C2 counterexample: on the empty list `getPaginatedTodos` reports 0
total pages, not `max 1 (ceil ...) = 1`; and a negative `currentPage`
wraps (JavaScript `slice` semantics) instead of clamping to an empty
slice. -/
theorem getPaginatedTodos_claim_counterexample :
    (getPaginatedTodos ([] : List Todo) 1 10).2
        ≠ max 1 (ceilDiv (List.length ([] : List Todo)) 10)
    ∧ (getPaginatedTodos
          [⟨['a'], ['a'], false, 0⟩, ⟨['b'], ['b'], false, 0⟩, ⟨['c'], ['c'], false, 0⟩]
          (-1) 1).1 ≠ [] := by
  constructor <;> decide

/-- C2 (amended): for positive `itemsPerPage` and `currentPage ≥ 1`,
`getPaginatedTodos` returns `totalPages = ceil(len/itemsPerPage)` with no
minimum of 1 (0 for the empty list), and the page slice is the contiguous
window `[(currentPage-1)*itemsPerPage, currentPage*itemsPerPage)` clamped
to bounds, so its length never exceeds `itemsPerPage` and a `currentPage`
beyond `totalPages` yields an empty slice rather than an error. -/
theorem getPaginatedTodos_spec (todos : List Todo) (p : Int) (ipp : Nat)
    (hipp : 0 < ipp) (hp : 1 ≤ p) :
    (getPaginatedTodos todos p ipp).2 = ceilDiv todos.length ipp
    ∧ (getPaginatedTodos todos p ipp).1 = (todos.drop ((p - 1).toNat * ipp)).take ipp
    ∧ (getPaginatedTodos todos p ipp).1.length ≤ ipp
    ∧ (((getPaginatedTodos todos p ipp).2 : Int) < p → (getPaginatedTodos todos p ipp).1 = []) := by
  have hslice : (getPaginatedTodos todos p ipp).1
      = (todos.drop ((p - 1).toNat * ipp)).take ipp := by
    show jsSlice todos ((p - 1) * (ipp : Int)) ((p - 1) * (ipp : Int) + (ipp : Int))
        = (todos.drop ((p - 1).toNat * ipp)).take ipp
    have hcast : ((p - 1) * (ipp : Int)) = (((p - 1).toNat * ipp : Nat) : Int) := by
      push_cast
      rw [Int.toNat_of_nonneg (by omega)]
    rw [hcast]
    exact jsSlice_nonneg todos _ ipp
  refine ⟨rfl, hslice, ?_, ?_⟩
  · rw [hslice, List.length_take]
    exact Nat.min_le_left _ _
  · intro hlt
    have h0 : (getPaginatedTodos todos p ipp).2 = ceilDiv todos.length ipp := rfl
    rw [h0] at hlt
    rw [hslice]
    have h2 : ceilDiv todos.length ipp ≤ (p - 1).toNat := by omega
    have h3 : todos.length ≤ (p - 1).toNat * ipp :=
      le_trans (ceilDiv_mul_ge _ _ hipp) (Nat.mul_le_mul_right _ h2)
    rw [List.drop_eq_nil_of_le h3]
    simp

/-- A three-task list used to instantiate the pagination theorem. -/
def threeTodos : List Todo :=
  [⟨['a'], ['a'], false, 0⟩, ⟨['b'], ['b'], false, 0⟩, ⟨['c'], ['c'], false, 0⟩]

/-- C2 witness: page 2 of a three-task list at two tasks per page. -/
theorem getPaginatedTodos_spec_witness :
    (getPaginatedTodos threeTodos 2 2).2 = ceilDiv threeTodos.length 2
    ∧ (getPaginatedTodos threeTodos 2 2).1
        = (threeTodos.drop (((2 : Int) - 1).toNat * 2)).take 2
    ∧ (getPaginatedTodos threeTodos 2 2).1.length ≤ 2
    ∧ (((getPaginatedTodos threeTodos 2 2).2 : Int) < 2
        → (getPaginatedTodos threeTodos 2 2).1 = []) :=
  getPaginatedTodos_spec threeTodos 2 2 (by decide) (by decide)

/-- Mapping an id-preserving function over the todos leaves `allIds`
unchanged. -/
theorem allIds_map_preserve (f : Todo → Todo) (hf : ∀ t, (f t).id = t.id) (s : TodoState) :
    allIds { s with todos := s.todos.map f } = allIds s := by
  unfold allIds
  dsimp only
  congr 1
  induction s.todos with
  | nil => rfl
  | cons t ts ih => simp [hf t, ih]

/-- One step of the store adds at most the freshly generated id to the set
of ids held anywhere in the state. -/
theorem stepOp_allIds_subset (op : Op) (s : TodoState) :
    ∀ x ∈ allIds (stepOp op s), x ∈ opAddIds op ++ allIds s := by
  cases op with
  | add genId now text => exact fun x hx => hx
  | toggle id =>
    intro x hx
    rw [show allIds (stepOp (.toggle id) s) = allIds s from
      allIds_map_preserve _ (fun t => by by_cases h : t.id = id <;> simp [h]) s] at hx
    exact hx
  | update id text =>
    intro x hx
    rw [show allIds (stepOp (.update id text) s) = allIds s from
      allIds_map_preserve _ (fun t => by by_cases h : t.id = id <;> simp [h]) s] at hx
    exact hx
  | delete now id =>
    show ∀ x ∈ allIds (deleteTodo now id s), x ∈ [] ++ allIds s
    unfold deleteTodo
    cases hf : s.todos.find? (fun todo => decide (todo.id = id)) with
    | none => exact fun x hx => hx
    | some t =>
      intro x hx
      have htmem : t ∈ s.todos := List.mem_of_find?_eq_some hf
      rw [List.nil_append]
      replace hx : x ∈ (s.todos.filter fun todo => !decide (todo.id = id)).map Todo.id
          ++ (t.id :: s.deletedTodos.map fun d => d.todo.id) := hx
      unfold allIds
      rcases List.mem_append.mp hx with hxF | hxC
      · obtain ⟨y, hymem, hyx⟩ := List.mem_map.mp hxF
        exact List.mem_append.mpr (Or.inl
          (hyx ▸ List.mem_map_of_mem Todo.id (List.mem_of_mem_filter hymem)))
      · rcases List.mem_cons.mp hxC with rfl | hxB
        · exact List.mem_append.mpr (Or.inl (List.mem_map_of_mem Todo.id htmem))
        · exact List.mem_append.mpr (Or.inr hxB)
  | undo =>
    show ∀ x ∈ allIds (undoDelete s), x ∈ [] ++ allIds s
    unfold undoDelete
    cases hd : s.deletedTodos with
    | nil => exact fun x hx => hx
    | cons d rest =>
      intro x hx
      rw [List.nil_append]
      replace hx : x ∈ d.todo.id
          :: (s.todos.map Todo.id ++ rest.map fun r => r.todo.id) := hx
      unfold allIds
      rw [hd]
      exact List.perm_middle.symm.subset hx
  | clearDone =>
    intro x hx
    replace hx : x ∈ (s.todos.filter fun todo => !todo.completed).map Todo.id
        ++ s.deletedTodos.map (fun d => d.todo.id) := hx
    show x ∈ [] ++ allIds s
    rw [List.nil_append]
    unfold allIds
    rcases List.mem_append.mp hx with hxF | hxB
    · obtain ⟨y, hymem, hyx⟩ := List.mem_map.mp hxF
      exact List.mem_append.mpr (Or.inl
        (hyx ▸ List.mem_map_of_mem Todo.id (List.mem_of_mem_filter hymem)))
    · exact List.mem_append.mpr (Or.inr hxB)
  | search query => exact fun x hx => hx
  | status filter => exact fun x hx => hx
  | date filter => exact fun x hx => hx
  | clearDate => exact fun x hx => hx
  | page p => exact fun x hx => hx
  | perPage n => exact fun x hx => hx

/-- One step of the store preserves distinctness of all held ids, provided
any freshly generated id is new. -/
theorem stepOp_allIds_nodup (op : Op) (s : TodoState) (hs : (allIds s).Nodup)
    (hfresh : ∀ i ∈ opAddIds op, i ∉ allIds s) : (allIds (stepOp op s)).Nodup := by
  cases op with
  | add genId now text =>
    show (genId :: allIds s).Nodup
    exact List.nodup_cons.mpr ⟨hfresh genId (List.mem_singleton_self genId), hs⟩
  | toggle id =>
    rw [show allIds (stepOp (.toggle id) s) = allIds s from
      allIds_map_preserve _ (fun t => by by_cases h : t.id = id <;> simp [h]) s]
    exact hs
  | update id text =>
    rw [show allIds (stepOp (.update id text) s) = allIds s from
      allIds_map_preserve _ (fun t => by by_cases h : t.id = id <;> simp [h]) s]
    exact hs
  | delete now id =>
    show (allIds (deleteTodo now id s)).Nodup
    unfold deleteTodo
    cases hf : s.todos.find? (fun todo => decide (todo.id = id)) with
    | none => exact hs
    | some t =>
      have htmem : t ∈ s.todos := List.mem_of_find?_eq_some hf
      have htid : t.id = id := by
        have := List.find?_some hf
        simpa using this
      show ((s.todos.filter fun todo => !decide (todo.id = id)).map Todo.id
          ++ (t.id :: s.deletedTodos.map fun d => d.todo.id)).Nodup
      unfold allIds at hs
      rw [List.nodup_append] at hs
      obtain ⟨hA, hB, hAB⟩ := hs
      rw [List.nodup_append]
      refine ⟨hA.sublist ((List.filter_sublist _).map Todo.id), ?_, ?_⟩
      · exact List.nodup_cons.mpr ⟨hAB (List.mem_map_of_mem Todo.id htmem), hB⟩
      · intro x hxF hxC
        obtain ⟨y, hymem, hyx⟩ := List.mem_map.mp hxF
        obtain ⟨hyl, hyp⟩ := List.mem_filter.mp hymem
        have hyneq : y.id ≠ id := by simpa using hyp
        rcases List.mem_cons.mp hxC with rfl | hxB
        · exact hyneq (htid ▸ hyx)
        · exact hAB (hyx ▸ List.mem_map_of_mem Todo.id hyl) hxB
  | undo =>
    show (allIds (undoDelete s)).Nodup
    unfold undoDelete
    cases hd : s.deletedTodos with
    | nil => exact hs
    | cons d rest =>
      show (d.todo.id :: (s.todos.map Todo.id ++ rest.map fun r => r.todo.id)).Nodup
      unfold allIds at hs
      rw [hd] at hs
      exact List.perm_middle.nodup_iff.mp hs
  | clearDone =>
    show ((s.todos.filter fun todo => !todo.completed).map Todo.id
        ++ s.deletedTodos.map fun d => d.todo.id).Nodup
    exact hs.sublist
      (List.Sublist.append ((List.filter_sublist _).map Todo.id) (List.Sublist.refl _))
  | search query => exact hs
  | status filter => exact hs
  | date filter => exact hs
  | clearDate => exact hs
  | page p => exact hs
  | perPage n => exact hs

/-- Running any operation sequence preserves distinctness of all held ids,
provided the generated ids are pairwise distinct and all new to the state. -/
theorem run_allIds_nodup : ∀ (ops : List Op) (s : TodoState),
    (addIds ops).Nodup → (allIds s).Nodup →
    (∀ i ∈ addIds ops, i ∉ allIds s) → (allIds (run ops s)).Nodup := by
  intro ops
  induction ops with
  | nil => exact fun s _ hs _ => hs
  | cons op rest ih =>
    intro s hids hs hfresh
    have heq : addIds (op :: rest) = opAddIds op ++ addIds rest := List.flatMap_cons _ _ _
    rw [heq] at hids hfresh
    rw [List.nodup_append] at hids
    obtain ⟨h1, h2, hdisj⟩ := hids
    have hstep : (allIds (stepOp op s)).Nodup :=
      stepOp_allIds_nodup op s hs fun i hi =>
        hfresh i (List.mem_append.mpr (Or.inl hi))
    refine ih (stepOp op s) h2 hstep ?_
    intro i hi hmem
    rcases List.mem_append.mp (stepOp_allIds_subset op s i hmem) with hop | hin
    · exact hdisj hop hi
    · exact hfresh i (List.mem_append.mpr (Or.inr hi)) hin

/-- C5: starting from the empty initial state, for any operation sequence
whose generated ids are pairwise distinct (generateId never repeats), the
ids of the live task collection are pairwise distinct after every
operation — stated for an arbitrary prefix `ops` of the full sequence
`ops ++ suf`, so the invariant holds at every intermediate point. -/
theorem store_live_ids_nodup (ops suf : List Op)
    (h : (addIds (ops ++ suf)).Nodup) :
    ((run ops initialState).todos.map Todo.id).Nodup := by
  have hsplit : addIds (ops ++ suf) = addIds ops ++ addIds suf :=
    List.flatMap_append ops suf opAddIds
  rw [hsplit, List.nodup_append] at h
  have hall : (allIds (run ops initialState)).Nodup :=
    run_allIds_nodup ops initialState h.1 List.nodup_nil
      (fun i _ hmem => List.not_mem_nil i hmem)
  exact (List.nodup_append.mp hall).1

/-- C5 witness: a concrete add/delete/undo/add run whose generated ids are
distinct, followed by a remaining suffix. -/
theorem store_live_ids_nodup_witness :
    (addIds ([Op.add ['a'] 0 ['t'], Op.delete 1 ['a'], Op.undo, Op.add ['b'] 2 ['u']]
        ++ [Op.clearDone])).Nodup
    ∧ ((run [Op.add ['a'] 0 ['t'], Op.delete 1 ['a'], Op.undo, Op.add ['b'] 2 ['u']]
        initialState).todos.map Todo.id).Nodup :=
  ⟨by decide,
    store_live_ids_nodup [Op.add ['a'] 0 ['t'], Op.delete 1 ['a'], Op.undo, Op.add ['b'] 2 ['u']]
      [Op.clearDone] (by decide)⟩
